import Mathlib

/-!
# Shallow embedding of `kubric/randomness.py`

This file embeds the randomized-placement utilities of the repository's
`src/kubric/randomness.py` and proves the specification's claims about them.

Modelling conventions:
* Python floats are embedded as rationals (`ℚ`).  `np.sqrt` appears in one
  place (`random_rotation` with `axis=None`); since every property proved
  here only uses the algebraic fact `sqrt a * sqrt a = a` at the one
  argument the code passes, `sqrt` is a function parameter and that fact a
  hypothesis where it is needed.
* `np.random.default_rng()` is embedded as an infinite stream of draws in
  `[0, 1)` together with a cursor; `rng.uniform(low, high)` consumes one
  draw `d` per produced component and yields `low + d * (high - low)`.
* The two `while` loops in `random_rotation` are unbounded in the source;
  they are embedded with an explicit unrolling budget (`fuel`), `none`
  standing for a run that has not accepted within that budget.
* In-place mutation of the asset becomes explicit state passing; a Python
  `raise` becomes an error-carrying result value.
-/

namespace Kubric

/-- An infinite stream of uniform draws, each intended to lie in `[0, 1)`
(the range of `numpy`'s `Generator.uniform()` with default bounds). -/
def DrawStream : Type := ℕ → ℚ

/-- Every draw of the stream lies in `[0, 1)`, as `numpy`'s `uniform` with
default bounds guarantees (the low endpoint 0 is included). -/
def ValidDraws (s : DrawStream) : Prop := ∀ i, 0 ≤ s i ∧ s i < 1

/-- The embedded random generator: a draw stream, the cursor of the next
draw, and the unrolling budget for the source's unbounded `while` loops. -/
structure Rng where
  s : DrawStream
  p : ℕ
  fuel : ℕ

/-- A 3D vector with rational components (embeds both `mathutils.Vector`
and the 3-element `numpy` rows this module manipulates). -/
structure Vec3 where
  x : ℚ
  y : ℚ
  z : ℚ
deriving DecidableEq, Repr

/-- Component-wise order on vectors, used to state "inside the box". -/
def VecLE (a b : Vec3) : Prop := a.x ≤ b.x ∧ a.y ≤ b.y ∧ a.z ≤ b.z

instance (a b : Vec3) : Decidable (VecLE a b) := by
  unfold VecLE; infer_instance

def vadd (a b : Vec3) : Vec3 := ⟨a.x + b.x, a.y + b.y, a.z + b.z⟩

def vsub (a b : Vec3) : Vec3 := ⟨a.x - b.x, a.y - b.y, a.z - b.z⟩

def vmin (a b : Vec3) : Vec3 := ⟨min a.x b.x, min a.y b.y, min a.z b.z⟩

def vmax (a b : Vec3) : Vec3 := ⟨max a.x b.x, max a.y b.y, max a.z b.z⟩

/-- Cross product, used by the quaternion rotation formula. -/
def cross (a b : Vec3) : Vec3 :=
  ⟨a.y * b.z - a.z * b.y, a.z * b.x - a.x * b.z, a.x * b.y - a.y * b.x⟩

/-- A quaternion as the 4-tuple of its components in the `mathutils`
storage order `(w, x, y, z)`. -/
def Quat4 : Type := ℚ × ℚ × ℚ × ℚ

/-- The squared norm of a quaternion 4-tuple. -/
def quatNormSq (q : Quat4) : ℚ :=
  q.1 * q.1 + q.2.1 * q.2.1 + q.2.2.1 * q.2.2.1 + q.2.2.2 * q.2.2.2

/-- Rotation of a vector by a quaternion (`mathutils.Vector.rotate`):
the conjugation `q · (0, v) · q⁻¹` written, for a unit quaternion
`(w, qv)`, as `v + 2 w (qv × v) + 2 (qv × (qv × v))`. -/
def qrot (q : Quat4) (v : Vec3) : Vec3 :=
  let w := q.1
  let qv : Vec3 := ⟨q.2.1, q.2.2.1, q.2.2.2⟩
  let t := cross qv v
  let u := cross qv t
  ⟨v.x + 2 * (w * t.x + u.x), v.y + 2 * (w * t.y + u.y), v.z + 2 * (w * t.z + u.z)⟩

/-- The embedded physical object (`kubric.core.objects.PhysicalObject` as
this module uses it): a mutable position, a quaternion, and a local
axis-aligned bounding box given as (min-corner, max-corner). -/
structure PhysicalObject where
  position : Vec3
  quaternion : Quat4
  bounds : Vec3 × Vec3

/-- One rejection-sampling `while` loop of `random_rotation` (`z = 2;
while z > 1: x, y = rng.uniform(size=2); z = x*x + y*y`): starting at
stream position `p`, draw pairs until one has squared radius `≤ 1`.
`fuel` bounds the number of unrollings of the (unbounded) source loop;
`none` means no pair was accepted within `fuel` iterations.  On success
the accepted pair and the position after it are returned. -/
def rejectLoop (s : DrawStream) (p : ℕ) : ℕ → Option (ℚ × ℚ × ℕ)
  | 0 => none
  | fuel + 1 =>
    let x := s p
    let y := s (p + 1)
    if x * x + y * y > 1 then rejectLoop s (p + 2) fuel
    else some (x, y, p + 2)

/-- `random_rotation(axis=None, rng)`: run the two rejection loops to get
accepted pairs `(x, y)` (squared radius `z`) and `(u, v)` (squared radius
`w`), then return `(x, y, s*u, s*v)` with `s = sqrt((1-z)/w)`.  `sqrt`
stands for `np.sqrt`. -/
def randomRotationNone (sqrt : ℚ → ℚ) (r : Rng) : Option (Quat4 × Rng) :=
  match rejectLoop r.s r.p r.fuel with
  | none => none
  | some (x, y, p1) =>
    match rejectLoop r.s p1 r.fuel with
    | none => none
    | some (u, v, p2) =>
      let z := x * x + y * y
      let w := u * u + v * v
      let sc := sqrt ((1 - z) / w)
      some ((x, y, sc * u, sc * v), { r with p := p2 })

/-- The squared radius `w` of the pair accepted by the second rejection
loop of `random_rotation` — the value the code divides by. -/
def acceptedSecondW (r : Rng) : Option ℚ :=
  match rejectLoop r.s r.p r.fuel with
  | none => none
  | some (_, _, p1) =>
    match rejectLoop r.s p1 r.fuel with
    | none => none
    | some (u, v, _) => some (u * u + v * v)

/-- The `axis` argument of `random_rotation` when it is not `None`: either
an explicit vector (a sequence of numbers) or a string naming an axis. -/
inductive AxisArg where
  | vec (v : List ℚ)
  | str (s : String)
deriving DecidableEq, Repr

/-- `axis.upper()`: upper-case the string, character by character (for
the one-letter axis names this module compares against, Python's
`str.upper` is exactly per-character ASCII upper-casing). -/
def upperChars (s : String) : List Char := s.data.map Char.toUpper

/-- The axis-resolution step of `random_rotation`: a string whose upper
case is one of `"X"`, `"Y"`, `"Z"` is replaced by the corresponding
entry of the literal dictionary `{"X": (1., 0., 0., 0.), "Y": (0., 1.,
0.), "Z": (0., 0., 1.)}` — note the source's `"X"` entry has four
components; every other argument is passed through unchanged. -/
def resolveAxis : AxisArg → AxisArg
  | .str s =>
      if upperChars s = ['X'] then .vec [1, 0, 0, 0]
      else if upperChars s = ['Y'] then .vec [0, 1, 0]
      else if upperChars s = ['Z'] then .vec [0, 0, 1]
      else .str s
  | .vec v => .vec v

/-- The errors the embedded `random_rotation(axis=...)` call can raise.
`invalidParams` embeds the generic error `mathutils.Quaternion` raises
when its first argument does not parse as a 3D axis vector (a string, or
a sequence whose length is not 3).  `invalidAxis` is modelled from the
spec: the dedicated error kind the spec prescribes for an unrecognized
axis name; the source never raises it. -/
inductive QErr where
  | invalidParams
  | invalidAxis
deriving DecidableEq, Repr

/-- `mathutils.Quaternion(axis, angle)` kept in axis–angle form: the
parsed 3D axis and the rotation angle.  (The numeric quaternion it
denotes, `(cos(angle/2), sin(angle/2) · axis/‖axis‖)`, is not inspected
by any property of this development, so the constructor's validation is
embedded exactly and the value is kept symbolic.) -/
structure MQuat where
  axis : Vec3
  angle : ℚ
deriving DecidableEq, Repr

/-- The `mathutils.Quaternion(axis, angle)` constructor: the axis must be
a sequence of exactly three numbers; a string or a sequence of any other
length raises. -/
def mquat (axis : AxisArg) (angle : ℚ) : Except QErr MQuat :=
  match axis with
  | .str _ => .error .invalidParams
  | .vec [a, b, c] => .ok ⟨⟨a, b, c⟩, angle⟩
  | .vec _ => .error .invalidParams

/-- The `axis is not None` branch of `random_rotation`: resolve a named
axis through the dictionary, then build `mathutils.Quaternion(axis,
rng.uniform(0, 2*np.pi))`.  `two_pi` stands for the real constant `2π`
(irrational, hence a parameter of this rational-valued embedding); `d` is
the draw, so the angle is `d * two_pi`. -/
def randomRotationAxis (two_pi : ℚ) (axis : AxisArg) (d : ℚ) : Except QErr MQuat :=
  mquat (resolveAxis axis) (d * two_pi)

/-- A sampler (the closures `rotation_sampler` and `position_sampler`
return): it takes the object and the rng and yields the mutated object
and advanced rng; `none` stands for a run of `random_rotation`'s
rejection loops that never accepts (the source would not return). -/
def Sampler (α : Type) : Type := α → Rng → Option (α × Rng)

/-- `rotation_sampler()` with the default `axis=None` (the only axis this
module ever uses): set the object's quaternion to a fresh
`random_rotation(axis=None, rng)` draw. -/
def rotation_sampler (sqrt : ℚ → ℚ) : Sampler PhysicalObject :=
  fun obj r =>
    (randomRotationNone sqrt r).map fun qr =>
      ({ obj with quaternion := qr.1 }, qr.2)

/-- The 8 corners of a local bounding box `(min-corner, max-corner)`, in
the order of `itertools.product(bounds[:, 0], bounds[:, 1], bounds[:, 2])`. -/
def bboxCorners (b : Vec3 × Vec3) : List Vec3 :=
  [⟨b.1.x, b.1.y, b.1.z⟩, ⟨b.1.x, b.1.y, b.2.z⟩,
   ⟨b.1.x, b.2.y, b.1.z⟩, ⟨b.1.x, b.2.y, b.2.z⟩,
   ⟨b.2.x, b.1.y, b.1.z⟩, ⟨b.2.x, b.1.y, b.2.z⟩,
   ⟨b.2.x, b.2.y, b.1.z⟩, ⟨b.2.x, b.2.y, b.2.z⟩]

/-- The rotated bounding extent of `position_sampler`: rotate every
corner of the local bounding box by the quaternion and take the
component-wise min and max (`bbox_points.min(axis=0)`,
`bbox_points.max(axis=0)`). -/
def rotatedBounds (q : Quat4) (b : Vec3 × Vec3) : Vec3 × Vec3 :=
  match (bboxCorners b).map (qrot q) with
  | [] => (⟨0, 0, 0⟩, ⟨0, 0, 0⟩)
  | c :: cs => (cs.foldl vmin c, cs.foldl vmax c)

/-- `rng.uniform(low, high)` on 3-component bounds: one draw per axis,
each sample `low + d * (high - low)` with `d` the draw in `[0, 1)`. -/
def uniform3 (lo hi : Vec3) (r : Rng) : Vec3 × Rng :=
  (⟨lo.x + r.s r.p * (hi.x - lo.x),
    lo.y + r.s (r.p + 1) * (hi.y - lo.y),
    lo.z + r.s (r.p + 2) * (hi.z - lo.z)⟩,
   { r with p := r.p + 3 })

/-- The closure `position_sampler(region)` returns: compute the rotated
bounding extent of the object, subtract it from the region bounds row by
row (`effective_region = np.array(region) - rotated_bounds`), and draw
the position uniformly from the effective region
(`obj.position = rng.uniform(*effective_region)`). -/
def position_sampler (region : Vec3 × Vec3) : Sampler PhysicalObject :=
  fun obj r =>
    let rb := rotatedBounds obj.quaternion obj.bounds
    let lo := vsub region.1 rb.1
    let hi := vsub region.2 rb.2
    let pr := uniform3 lo hi r
    some ({ obj with position := pr.1 }, pr.2)

/-- The outcome of `resample_while`: a normal return with the final
asset state and rng, the `raise RuntimeError("Failed to place", asset)`
carrying the asset as the source's error does, or a run in which a
sampler's rejection loop never accepted (the source would not return). -/
inductive RunResult (α : Type) where
  | ok (a : α) (rng : Rng)
  | failed (a : α)
  | diverged

/-- `for sampler in samplers: sampler(asset, rng)` — one trial's pass
over the sampler list, in order, threading the state. -/
def runSamplers {α : Type} : List (Sampler α) → α × Rng → Option (α × Rng)
  | [], p => some p
  | smp :: rest, p => (smp p.1 p.2).bind (runSamplers rest)

/-- The state after `k` full trials (each a pass over the whole sampler
list), starting from `p`. -/
def trialIter {α : Type} (samplers : List (Sampler α)) : ℕ → α × Rng → Option (α × Rng)
  | 0, p => some p
  | k + 1, p => (runSamplers samplers p).bind (trialIter samplers k)

/-- The trial loop of `resample_while`, by recursion on the remaining
trial budget: apply every sampler, return if the condition is false,
otherwise keep trying; with the budget exhausted, raise with the asset
in its current (last-mutated) state. -/
def resampleGo {α : Type} (samplers : List (Sampler α)) (condition : α → Bool) :
    ℕ → α → Rng → RunResult α
  | 0, a, _ => .failed a
  | n + 1, a, r =>
    match runSamplers samplers (a, r) with
    | none => .diverged
    | some p =>
      if condition p.1 then resampleGo samplers condition n p.1 p.2
      else .ok p.1 p.2

/-- `resample_while(asset, samplers, condition, max_trials, rng)`: the
`for trial in range(max_trials)` loop runs `max(max_trials, 0)` times;
its `else:` clause raises when no trial returned early. -/
def resample_while {α : Type} (asset : α) (samplers : List (Sampler α))
    (condition : α → Bool) (max_trials : ℤ) (rng : Rng) : RunResult α :=
  resampleGo samplers condition max_trials.toNat asset rng

/-- The overlap-checking collaborator: `simulator.check_overlap`. -/
structure Simulator where
  check_overlap : PhysicalObject → Bool

/-- The default of `move_until_no_overlap`'s `spawn_region` parameter,
`((-1, -1, -1), (1, 1, 1))`. -/
def default_spawn_region : Vec3 × Vec3 := (⟨-1, -1, -1⟩, ⟨1, 1, 1⟩)

/-- The default of `move_until_no_overlap`'s (and `resample_while`'s)
`max_trials` parameter. -/
def default_max_trials : ℤ := 100

/-- `move_until_no_overlap(asset, simulator, spawn_region, max_trials,
rng)`: `resample_while` with a fresh rotation sampler followed by a
position sampler for the spawn region, the simulator's overlap check as
the condition. -/
def move_until_no_overlap (sqrt : ℚ → ℚ) (asset : PhysicalObject)
    (simulator : Simulator) (spawn_region : Vec3 × Vec3) (max_trials : ℤ)
    (rng : Rng) : RunResult PhysicalObject :=
  resample_while asset [rotation_sampler sqrt, position_sampler spawn_region]
    simulator.check_overlap max_trials rng

/-! ### Concrete inputs used by the witnesses -/

/-- The stream that always draws `1/2`. -/
def halfStream : DrawStream := fun _ => 1/2

/-- The stream that always draws `0` (0 is a value `uniform()` can return). -/
def zeroStream : DrawStream := fun _ => 0

/-- A toy sampler on `ℕ` assets: increment the asset, leave the rng alone. -/
def incrSampler : Sampler ℕ := fun a r => some (a + 1, r)

/-- A generator over the zero stream. -/
def rngZero : Rng := ⟨zeroStream, 0, 0⟩

/-- A generator over the half stream with one loop unrolling of budget. -/
def rngHalf : Rng := ⟨halfStream, 0, 1⟩

/-- The target region `((-1, -1, -1), (1, 1, 1))`. -/
def regionCube : Vec3 × Vec3 := (⟨-1, -1, -1⟩, ⟨1, 1, 1⟩)

/-- An object at the origin, unrotated, whose local bounding box is the
unit cube centered at the origin. -/
def unitCubeObj : PhysicalObject :=
  ⟨⟨0, 0, 0⟩, (1, 0, 0, 0), (⟨-1/2, -1/2, -1/2⟩, ⟨1/2, 1/2, 1/2⟩)⟩

/-- `unitCubeObj` after the position sampled over the zero stream. -/
def unitCubeObjMoved : PhysicalObject :=
  ⟨⟨-1/2, -1/2, -1/2⟩, (1, 0, 0, 0), (⟨-1/2, -1/2, -1/2⟩, ⟨1/2, 1/2, 1/2⟩)⟩

/-! ### The trial loop of `resample_while` -/

theorem trialIter_one {α : Type} (samplers : List (Sampler α)) (p : α × Rng) :
    trialIter samplers 1 p = runSamplers samplers p := by
  show (runSamplers samplers p).bind (trialIter samplers 0) = runSamplers samplers p
  cases runSamplers samplers p <;> rfl

theorem trialIter_succ_of_run {α : Type} (samplers : List (Sampler α)) (k : ℕ)
    (q p1 : α × Rng) (hstep : runSamplers samplers q = some p1) :
    trialIter samplers (k + 1) q = trialIter samplers k p1 := by
  rw [trialIter, hstep]; rfl

/-- Exhaustion: if every one of the first `n` trials completes and its
condition evaluates to true, the trial loop raises, carrying the state
after the `n`-th trial. -/
theorem resampleGo_exhaust {α : Type} (samplers : List (Sampler α))
    (condition : α → Bool) (n : ℕ) :
    ∀ (a : α) (r : Rng) (pfin : α × Rng),
      trialIter samplers n (a, r) = some pfin →
      (∀ k p, 1 ≤ k → k ≤ n → trialIter samplers k (a, r) = some p →
        condition p.1 = true) →
      resampleGo samplers condition n a r = .failed pfin.1 := by
  induction n with
  | zero =>
    intro a r pfin hfin _
    have : pfin = (a, r) := by simpa [trialIter] using hfin.symm
    subst this
    rfl
  | succ n ih =>
    intro a r pfin hfin hall
    rw [trialIter] at hfin
    rcases Option.bind_eq_some.mp hfin with ⟨p1, hstep, hrest⟩
    have hc1 : condition p1.1 = true :=
      hall 1 p1 le_rfl (by omega) (by rw [trialIter_one]; exact hstep)
    have hred : resampleGo samplers condition (n + 1) a r =
        resampleGo samplers condition n p1.1 p1.2 := by
      rw [resampleGo, hstep]
      simp [hc1]
    rw [hred]
    refine ih p1.1 p1.2 pfin hrest ?_
    intro k p hk1 hkn hti
    exact hall (k + 1) p (by omega) (by omega)
      (by rw [trialIter_succ_of_run samplers k (a, r) p1 hstep]; exact hti)

/-- Acceptance: if the first `k - 1` trials complete with a true
condition and the `k`-th completes with a false one, the trial loop
returns the `k`-th trial's state (given at least `k` trials of budget). -/
theorem resampleGo_accept {α : Type} (samplers : List (Sampler α))
    (condition : α → Bool) (k : ℕ) :
    ∀ (n : ℕ) (a : α) (r : Rng) (pk : α × Rng),
      1 ≤ k → k ≤ n →
      (∀ j p, 1 ≤ j → j < k → trialIter samplers j (a, r) = some p →
        condition p.1 = true) →
      trialIter samplers k (a, r) = some pk → condition pk.1 = false →
      resampleGo samplers condition n a r = .ok pk.1 pk.2 := by
  induction k with
  | zero => intro n a r pk hk1; omega
  | succ k ih =>
    intro n a r pk _ hkn hbefore hk hfalse
    obtain ⟨m, rfl⟩ : ∃ m, n = m + 1 := ⟨n - 1, by omega⟩
    rcases Nat.eq_zero_or_pos k with rfl | hkpos
    · rw [trialIter_one] at hk
      rw [resampleGo, hk]
      simp [hfalse]
    · rw [trialIter] at hk
      rcases Option.bind_eq_some.mp hk with ⟨p1, hstep, hrest⟩
      have hc1 : condition p1.1 = true :=
        hbefore 1 p1 le_rfl (by omega) (by rw [trialIter_one]; exact hstep)
      have hred : resampleGo samplers condition (m + 1) a r =
          resampleGo samplers condition m p1.1 p1.2 := by
        rw [resampleGo, hstep]
        simp [hc1]
      rw [hred]
      refine ih m p1.1 p1.2 pk hkpos (by omega) ?_ hrest hfalse
      intro j p hj1 hjk hti
      exact hbefore (j + 1) p (by omega) (by omega)
        (by rw [trialIter_succ_of_run samplers j (a, r) p1 hstep]; exact hti)

/-- C1: for every asset, non-empty sampler list, rng and `max_trials ≥ 1`,
if every trial completes and the condition evaluates to true on every
trial, `resample_while` performs exactly `max_trials` trials (each a pass
over the whole sampler list, in order: `trialIter`) and then raises the
placement error carrying the asset in its final state — it never returns
normally. -/
theorem resample_while_exhausts_all_trials {α : Type} (asset : α)
    (samplers : List (Sampler α)) (condition : α → Bool) (max_trials : ℤ)
    (rng : Rng) (pfin : α × Rng)
    (hne : samplers ≠ []) (hmax : 1 ≤ max_trials)
    (hfin : trialIter samplers max_trials.toNat (asset, rng) = some pfin)
    (hall : ∀ k p, 1 ≤ k → k ≤ max_trials.toNat →
      trialIter samplers k (asset, rng) = some p → condition p.1 = true) :
    resample_while asset samplers condition max_trials rng = .failed pfin.1 :=
  resampleGo_exhaust samplers condition max_trials.toNat asset rng pfin hfin hall

/-- C1 witness: a concrete run in which the condition is always true:
with `max_trials = 2` and a sampler that increments a counter asset, the
loop raises after exactly 2 trials, carrying the twice-incremented asset. -/
theorem resample_while_exhausts_all_trials_witness :
    resample_while 0 [incrSampler] (fun _ => true) 2 rngZero = .failed 2 :=
  resample_while_exhausts_all_trials 0 [incrSampler] (fun _ => true) 2 rngZero
    (2, rngZero) (by simp) (by norm_num) rfl (fun _ p _ _ _ => rfl)

/-- C2: if the condition first evaluates to false on trial `k` (with
`1 ≤ k ≤ max_trials`), `resample_while` returns normally with the state
produced by the `k`-th trial — the asset mutated by the accepted trial,
not by any earlier one. -/
theorem resample_while_accepts_kth_trial {α : Type} (asset : α)
    (samplers : List (Sampler α)) (condition : α → Bool) (max_trials : ℤ)
    (rng : Rng) (k : ℕ) (pk : α × Rng)
    (hk1 : 1 ≤ k) (hkm : k ≤ max_trials.toNat)
    (hbefore : ∀ j p, 1 ≤ j → j < k → trialIter samplers j (asset, rng) = some p →
      condition p.1 = true)
    (hkth : trialIter samplers k (asset, rng) = some pk)
    (hacc : condition pk.1 = false) :
    resample_while asset samplers condition max_trials rng = .ok pk.1 pk.2 :=
  resampleGo_accept samplers condition k max_trials.toNat asset rng pk hk1 hkm
    hbefore hkth hacc

/-- C2 witness: a condition that becomes false on the 3rd trial: with the
increment sampler the loop returns after exactly 3 applications, with the
asset in its 3rd-trial state. -/
theorem resample_while_accepts_kth_trial_witness :
    resample_while 0 [incrSampler] (fun a => a < 3) 100 rngZero = .ok 3 rngZero :=
  resample_while_accepts_kth_trial 0 [incrSampler] (fun a => a < 3) 100 rngZero 3
    (3, rngZero) (by norm_num) (by norm_num)
    (fun j p hj1 hjk hti => by
      interval_cases j <;>
        · simp only [trialIter_one, trialIter, runSamplers, incrSampler,
            Option.bind] at hti
          cases Option.some.inj hti
          rfl)
    rfl (by simp)

/-- C10: with `max_trials = 0` — or any non-positive `max_trials`, since
`range(max_trials)` is then empty — `resample_while` raises the placement
error immediately: the error carries the asset completely unchanged, for
every sampler list and every condition (so no sampler was applied and the
condition was never evaluated). -/
theorem resample_while_nonpos_raises_immediately {α : Type} (asset : α)
    (samplers : List (Sampler α)) (condition : α → Bool) (max_trials : ℤ)
    (rng : Rng) (hmax : max_trials ≤ 0) :
    resample_while asset samplers condition max_trials rng = .failed asset := by
  unfold resample_while
  rw [Int.toNat_of_nonpos hmax]
  rfl

/-- C10 witness: `max_trials = 0` with a concrete asset, sampler and an
always-false condition still raises at once with the asset unchanged. -/
theorem resample_while_nonpos_raises_immediately_witness :
    resample_while 7 [incrSampler] (fun _ => false) 0 rngZero = .failed 7 :=
  resample_while_nonpos_raises_immediately 7 [incrSampler] (fun _ => false) 0
    rngZero le_rfl

/-! ### Termination of the sampling loops -/

/-- The rejection loop accepts as soon as some drawn pair has squared
radius at most 1: if the pair at offset `2k` is acceptable, `k + 1`
unrollings suffice. -/
theorem rejectLoop_accepts (s : DrawStream) (k : ℕ) :
    ∀ p : ℕ, s (p + 2 * k) * s (p + 2 * k) + s (p + 2 * k + 1) * s (p + 2 * k + 1) ≤ 1 →
      rejectLoop s p (k + 1) ≠ none := by
  induction k with
  | zero =>
    intro p h
    simp only [Nat.mul_zero, Nat.add_zero] at h
    rw [rejectLoop]
    simp only [not_lt.mpr h, if_neg, gt_iff_lt, not_lt_of_le h, if_false]
    simp
  | succ k ih =>
    intro p h
    rw [rejectLoop]
    by_cases hc : s p * s p + s (p + 1) * s (p + 1) > 1
    · simp only [hc, if_true]
      have e : p + 2 * (k + 1) = p + 2 + 2 * k := by ring
      rw [e] at h
      exact ih (p + 2) h
    · simp [hc]

/-- Every run of the trial loop resolves within its budget: it diverges
in a sampler, or raises with the state after the full `max_trials`
trials, or returns the state of some trial `k ≤ max_trials`. -/
theorem resampleGo_resolves {α : Type} (samplers : List (Sampler α))
    (condition : α → Bool) (n : ℕ) :
    ∀ (a : α) (r : Rng),
      resampleGo samplers condition n a r = .diverged ∨
      (∃ p, trialIter samplers n (a, r) = some p ∧
        resampleGo samplers condition n a r = .failed p.1) ∨
      (∃ k p, 1 ≤ k ∧ k ≤ n ∧ trialIter samplers k (a, r) = some p ∧
        resampleGo samplers condition n a r = .ok p.1 p.2) := by
  induction n with
  | zero =>
    intro a r
    exact Or.inr (Or.inl ⟨(a, r), rfl, rfl⟩)
  | succ n ih =>
    intro a r
    cases hstep : runSamplers samplers (a, r) with
    | none =>
      left
      rw [resampleGo, hstep]
    | some p1 =>
      by_cases hc : condition p1.1 = true
      · have hred : resampleGo samplers condition (n + 1) a r =
            resampleGo samplers condition n p1.1 p1.2 := by
          rw [resampleGo, hstep]; simp [hc]
        rcases ih p1.1 p1.2 with h | ⟨p, hti, hre⟩ | ⟨k, p, hk1, hkn, hti, hre⟩
        · left; rw [hred]; exact h
        · refine Or.inr (Or.inl ⟨p, ?_, by rw [hred]; exact hre⟩)
          rw [trialIter_succ_of_run samplers n (a, r) p1 hstep]; exact hti
        · refine Or.inr (Or.inr ⟨k + 1, p, by omega, by omega, ?_, by rw [hred]; exact hre⟩)
          rw [trialIter_succ_of_run samplers k (a, r) p1 hstep]; exact hti
      · refine Or.inr (Or.inr ⟨1, p1, le_rfl, by omega, ?_, ?_⟩)
        · rw [trialIter_one]; exact hstep
        · rw [resampleGo, hstep]; simp [hc]

/-- C7 (amended): the trial loop of `resample_while` (and hence of
`move_until_no_overlap`) resolves within its fixed budget of `max_trials`
trials — it raises after the full budget or returns some trial's state —
and the two rejection-sampling loops inside `random_rotation` terminate
for every random source that ever yields a pair of squared radius at most
1.  (They do not terminate for every adversarial source; see the
counterexample.) -/
theorem sampling_loops_bounded :
    (∀ (s : DrawStream) (k p : ℕ),
      s (p + 2 * k) * s (p + 2 * k) + s (p + 2 * k + 1) * s (p + 2 * k + 1) ≤ 1 →
      rejectLoop s p (k + 1) ≠ none) ∧
    (∀ (α : Type) (asset : α) (samplers : List (Sampler α)) (condition : α → Bool)
      (max_trials : ℤ) (rng : Rng),
      resample_while asset samplers condition max_trials rng = .diverged ∨
      (∃ p, trialIter samplers max_trials.toNat (asset, rng) = some p ∧
        resample_while asset samplers condition max_trials rng = .failed p.1) ∨
      (∃ k p, 1 ≤ k ∧ k ≤ max_trials.toNat ∧
        trialIter samplers k (asset, rng) = some p ∧
        resample_while asset samplers condition max_trials rng = .ok p.1 p.2)) :=
  ⟨fun s k p h => rejectLoop_accepts s k p h,
   fun _ asset samplers condition max_trials rng =>
    resampleGo_resolves samplers condition max_trials.toNat asset rng⟩

/-- C7 witness: the terminating conclusions at concrete inputs — the
loop over the constant-1/2 stream accepts within one unrolling, and a
concrete `resample_while` run returns its first trial's state. -/
theorem sampling_loops_bounded_witness :
    rejectLoop halfStream 0 1 ≠ none ∧
    (resample_while 0 [incrSampler] (fun _ => true) 1 rngZero = .diverged ∨
      (∃ p, trialIter [incrSampler] (1 : ℤ).toNat (0, rngZero) = some p ∧
        resample_while 0 [incrSampler] (fun _ => true) 1 rngZero = .failed p.1) ∨
      (∃ k p, 1 ≤ k ∧ k ≤ (1 : ℤ).toNat ∧
        trialIter [incrSampler] k (0, rngZero) = some p ∧
        resample_while 0 [incrSampler] (fun _ => true) 1 rngZero = .ok p.1 p.2)) :=
  ⟨sampling_loops_bounded.1 halfStream 0 0 (by norm_num [halfStream]),
   sampling_loops_bounded.2 ℕ 0 [incrSampler] (fun _ => true) 1 rngZero⟩

/-- C7 counterexample: it is not true that the rejection-sampling loops
terminate for every random source: the adversarial source that always
draws `9/10` (a value `uniform()` can produce) makes every drawn pair
have squared radius `81/50 > 1`, so no number of unrollings accepts —
the source's `while` loop never exits. -/
theorem sampling_loops_unbounded_for_adversarial_rng :
    ¬ ∀ s : DrawStream, ValidDraws s → ∃ fuel, rejectLoop s 0 fuel ≠ none := by
  intro h
  have hnever : ∀ fuel p, rejectLoop (fun _ => (9 : ℚ)/10) p fuel = none := by
    intro fuel
    induction fuel with
    | zero => intro p; rfl
    | succ fuel ih =>
      intro p
      rw [rejectLoop]
      norm_num
      exact ih (p + 2)
  rcases h (fun _ => (9 : ℚ)/10) (fun _ => by norm_num) with ⟨fuel, hfuel⟩
  exact hfuel (hnever fuel 0)

/-! ### The Shoemake rotation (`random_rotation` with `axis=None`) -/

/-- C4 (amended): whenever both rejection loops accept and the second
accepted pair `(u, v)` has `w = u² + v² ≠ 0`, the quaternion
`(x, y, s·u, s·v)` that `random_rotation(axis=None)` returns has squared
norm exactly 1 — for any square-root function satisfying
`sqrt a · sqrt a = a` at the one argument `(1 - z)/w` the code passes
(`np.sqrt` does, that argument being nonnegative there).  When `w = 0`
the code divides by zero; see the counterexample. -/
theorem randomRotationNone_unit_norm (sqrt : ℚ → ℚ) (r : Rng) (x y u v : ℚ)
    (p1 p2 : ℕ) (q : Quat4) (r' : Rng)
    (h1 : rejectLoop r.s r.p r.fuel = some (x, y, p1))
    (h2 : rejectLoop r.s p1 r.fuel = some (u, v, p2))
    (hw : u * u + v * v ≠ 0)
    (hs : sqrt ((1 - (x * x + y * y)) / (u * u + v * v)) *
        sqrt ((1 - (x * x + y * y)) / (u * u + v * v)) =
        (1 - (x * x + y * y)) / (u * u + v * v))
    (hres : randomRotationNone sqrt r = some (q, r')) :
    quatNormSq q = 1 := by
  simp only [randomRotationNone, h1, h2, Option.some.injEq, Prod.mk.injEq] at hres
  obtain ⟨hq, -⟩ := hres
  subst hq
  unfold quatNormSq
  have expand :
      x * x + y * y +
        sqrt ((1 - (x * x + y * y)) / (u * u + v * v)) * u *
          (sqrt ((1 - (x * x + y * y)) / (u * u + v * v)) * u) +
        sqrt ((1 - (x * x + y * y)) / (u * u + v * v)) * v *
          (sqrt ((1 - (x * x + y * y)) / (u * u + v * v)) * v) =
      x * x + y * y +
        (sqrt ((1 - (x * x + y * y)) / (u * u + v * v)) *
          sqrt ((1 - (x * x + y * y)) / (u * u + v * v))) * (u * u + v * v) := by
    ring
  rw [expand, hs, div_mul_cancel₀ _ hw]
  ring

/-- C4 witness: over the constant-1/2 stream both loops accept their
first pair, `(1-z)/w = 1`, and the returned quaternion
`(1/2, 1/2, 1/2, 1/2)` has squared norm 1. -/
theorem randomRotationNone_unit_norm_witness :
    quatNormSq ((1 : ℚ)/2, (1 : ℚ)/2, (1 : ℚ)/2, (1 : ℚ)/2) = 1 := by
  have h1 : rejectLoop rngHalf.s rngHalf.p rngHalf.fuel = some (1/2, 1/2, 2) := by
    norm_num [rejectLoop, rngHalf, halfStream]
  have h2 : rejectLoop rngHalf.s 2 rngHalf.fuel = some (1/2, 1/2, 4) := by
    norm_num [rejectLoop, rngHalf, halfStream]
  have hres : randomRotationNone id rngHalf =
      some (((1 : ℚ)/2, (1 : ℚ)/2, (1 : ℚ)/2, (1 : ℚ)/2), ⟨halfStream, 4, 1⟩) := by
    simp only [randomRotationNone, h1, h2, id_eq]
    norm_num [rngHalf]
  exact randomRotationNone_unit_norm id rngHalf (1/2) (1/2) (1/2) (1/2) 2 4
    ((1 : ℚ)/2, (1 : ℚ)/2, (1 : ℚ)/2, (1 : ℚ)/2) ⟨halfStream, 4, 1⟩
    h1 h2 (by norm_num) (by norm_num) hres

/-- C4 counterexample: the division by `w` can divide by zero.  The zero
stream is a valid draw sequence (`uniform()` includes its low endpoint
0), both rejection loops accept the pair `(0, 0)` at once, and the
squared radius `w` of the second accepted pair — the divisor in
`np.sqrt((1-z) / w)` — is 0. -/
theorem randomRotationNone_divides_by_zero :
    ValidDraws zeroStream ∧ acceptedSecondW ⟨zeroStream, 0, 1⟩ = some 0 :=
  ⟨fun _ => by norm_num [zeroStream],
   by norm_num [acceptedSecondW, rejectLoop, zeroStream]⟩

/-! ### The axis branch of `random_rotation` -/

/-- C5 (the code's behavior at the failing input): the source's axis
dictionary maps `"X"` to the 4-tuple `(1., 0., 0., 0.)` — not the
3-component basis vector — so the quaternion constructor, which requires
a 3D axis, raises for `axis="X"` instead of returning a rotation about
`(1, 0, 0)`; `"Y"` and `"Z"` resolve to their 3-component basis vectors
and succeed. -/
theorem randomRotation_axisX_raises (two_pi d : ℚ) :
    resolveAxis (.str "X") = .vec [1, 0, 0, 0] ∧
    randomRotationAxis two_pi (.str "X") d = .error .invalidParams ∧
    randomRotationAxis two_pi (.str "Y") d = .ok ⟨⟨0, 1, 0⟩, d * two_pi⟩ ∧
    randomRotationAxis two_pi (.str "Z") d = .ok ⟨⟨0, 0, 1⟩, d * two_pi⟩ := by
  have hx : resolveAxis (.str "X") = .vec [1, 0, 0, 0] := by decide
  have hy : resolveAxis (.str "Y") = .vec [0, 1, 0] := by decide
  have hz : resolveAxis (.str "Z") = .vec [0, 0, 1] := by decide
  refine ⟨hx, ?_, ?_, ?_⟩ <;> unfold randomRotationAxis
  · rw [hx]; rfl
  · rw [hy]; rfl
  · rw [hz]; rfl

/-- C6 (amended): for every string axis whose upper case is none of
`"X"`, `"Y"`, `"Z"`, `random_rotation` fails rather than returning a
quaternion — but with the quaternion constructor's generic
invalid-parameters error (a string does not parse as a 3D axis), not a
dedicated InvalidAxis error. -/
theorem randomRotation_unknown_axis_raises (two_pi d : ℚ) (s : String)
    (h : ¬(upperChars s = ['X'] ∨ upperChars s = ['Y'] ∨ upperChars s = ['Z'])) :
    randomRotationAxis two_pi (.str s) d = .error .invalidParams := by
  push_neg at h
  obtain ⟨hX, hY, hZ⟩ := h
  simp only [randomRotationAxis, resolveAxis]
  rw [if_neg hX, if_neg hY, if_neg hZ]
  rfl

/-- C6 witness: the unrecognized axis name `"W"` raises the generic
constructor error. -/
theorem randomRotation_unknown_axis_raises_witness :
    randomRotationAxis 1 (.str "W") 0 = .error .invalidParams :=
  randomRotation_unknown_axis_raises 1 0 "W" (by decide)

/-- C6 counterexample: at the unrecognized axis `"W"` the error raised
is the constructor's generic invalid-parameters error, which is not the
spec's dedicated InvalidAxis error kind. -/
theorem randomRotation_unknown_axis_error_kind :
    randomRotationAxis 1 (.str "W") 2 = .error .invalidParams ∧
    QErr.invalidParams ≠ QErr.invalidAxis := by
  constructor
  · have hW : resolveAxis (.str "W") = .str "W" := by decide
    simp only [randomRotationAxis]
    rw [hW]
    rfl
  · decide

/-! ### Frame conditions of the samplers -/

/-- C9: the rotation sampler's closure mutates only the object's
quaternion — position and bounds are unchanged — and the position
sampler's closure mutates only the object's position — quaternion and
bounds are unchanged.  (The embedding passes the region by value, as the
source effectively does: `np.array(region) - rotated_bounds` allocates a
fresh array, leaving the captured region untouched.) -/
theorem samplers_frame_conditions (sqrt : ℚ → ℚ) (region : Vec3 × Vec3)
    (obj : PhysicalObject) (r : Rng) (o1 : PhysicalObject) (r1 : Rng)
    (o2 : PhysicalObject) (r2 : Rng)
    (hrot : rotation_sampler sqrt obj r = some (o1, r1))
    (hpos : position_sampler region obj r = some (o2, r2)) :
    (o1.position = obj.position ∧ o1.bounds = obj.bounds) ∧
    (o2.quaternion = obj.quaternion ∧ o2.bounds = obj.bounds) := by
  constructor
  · unfold rotation_sampler at hrot
    cases h : randomRotationNone sqrt r with
    | none => rw [h] at hrot; cases hrot
    | some qr =>
      rw [h] at hrot
      simp only [Option.map_some', Option.some.injEq, Prod.mk.injEq] at hrot
      obtain ⟨ho, -⟩ := hrot
      rw [← ho]
      exact ⟨rfl, rfl⟩
  · unfold position_sampler at hpos
    simp only [Option.some.injEq, Prod.mk.injEq] at hpos
    obtain ⟨ho, -⟩ := hpos
    rw [← ho]
    exact ⟨rfl, rfl⟩

/-- C9 witness: concrete runs of both samplers over the half stream:
the rotation sampler changed only the quaternion of the unit-cube
object, and the position sampler changed only its position. -/
theorem samplers_frame_conditions_witness :
    (({ unitCubeObj with quaternion := ((1 : ℚ)/2, (1 : ℚ)/2, (1 : ℚ)/2, (1 : ℚ)/2) :
        PhysicalObject }).position = unitCubeObj.position ∧
     ({ unitCubeObj with quaternion := ((1 : ℚ)/2, (1 : ℚ)/2, (1 : ℚ)/2, (1 : ℚ)/2) :
        PhysicalObject }).bounds = unitCubeObj.bounds) ∧
    (unitCubeObj.quaternion = unitCubeObj.quaternion ∧
     unitCubeObj.bounds = unitCubeObj.bounds) := by
  have h1 : rejectLoop rngHalf.s rngHalf.p rngHalf.fuel = some (1/2, 1/2, 2) := by
    norm_num [rejectLoop, rngHalf, halfStream]
  have h2 : rejectLoop rngHalf.s 2 rngHalf.fuel = some (1/2, 1/2, 4) := by
    norm_num [rejectLoop, rngHalf, halfStream]
  refine samplers_frame_conditions id regionCube unitCubeObj rngHalf
    { unitCubeObj with quaternion := ((1 : ℚ)/2, (1 : ℚ)/2, (1 : ℚ)/2, (1 : ℚ)/2) }
    ⟨halfStream, 4, 1⟩ unitCubeObj ⟨halfStream, 3, 1⟩ ?_ ?_
  · unfold rotation_sampler
    simp only [randomRotationNone, h1, h2, id_eq]
    norm_num [rngHalf]
  · unfold position_sampler
    simp only [Option.some.injEq, Prod.mk.injEq]
    constructor
    · norm_num [uniform3, rotatedBounds, bboxCorners, qrot, cross, vmin, vmax,
        vsub, regionCube, unitCubeObj, rngHalf, halfStream]
    · norm_num [uniform3, rngHalf]

/-! ### The `move_until_no_overlap` wrapper -/

/-- C8: `move_until_no_overlap` is exactly `resample_while` with the
sampler list `[rotation_sampler, position_sampler(spawn_region)]` — the
rotation sampler applied before the position sampler on each trial — and
the simulator's `check_overlap` as the condition; its defaults are
`max_trials = 100` and `spawn_region = ((-1, -1, -1), (1, 1, 1))`. -/
theorem move_until_no_overlap_is_resample_while (sqrt : ℚ → ℚ)
    (asset : PhysicalObject) (simulator : Simulator) (spawn_region : Vec3 × Vec3)
    (max_trials : ℤ) (rng : Rng) :
    move_until_no_overlap sqrt asset simulator spawn_region max_trials rng =
      resample_while asset [rotation_sampler sqrt, position_sampler spawn_region]
        simulator.check_overlap max_trials rng ∧
    default_max_trials = 100 ∧
    default_spawn_region = (⟨-1, -1, -1⟩, ⟨1, 1, 1⟩) :=
  ⟨rfl, rfl, rfl⟩

/-! ### Geometry of `position_sampler` -/

theorem vecLE_refl (a : Vec3) : VecLE a a := ⟨le_rfl, le_rfl, le_rfl⟩

theorem vecLE_trans {a b c : Vec3} (h1 : VecLE a b) (h2 : VecLE b c) : VecLE a c :=
  ⟨h1.1.trans h2.1, h1.2.1.trans h2.2.1, h1.2.2.trans h2.2.2⟩

theorem vmin_le_left (a b : Vec3) : VecLE (vmin a b) a :=
  ⟨min_le_left _ _, min_le_left _ _, min_le_left _ _⟩

theorem vmin_le_right (a b : Vec3) : VecLE (vmin a b) b :=
  ⟨min_le_right _ _, min_le_right _ _, min_le_right _ _⟩

theorem left_le_vmax (a b : Vec3) : VecLE a (vmax a b) :=
  ⟨le_max_left _ _, le_max_left _ _, le_max_left _ _⟩

theorem right_le_vmax (a b : Vec3) : VecLE b (vmax a b) :=
  ⟨le_max_right _ _, le_max_right _ _, le_max_right _ _⟩

theorem foldl_vmin_le_init (l : List Vec3) : ∀ a : Vec3, VecLE (l.foldl vmin a) a := by
  induction l with
  | nil => intro a; exact vecLE_refl a
  | cons x l ih =>
    intro a
    exact vecLE_trans (ih (vmin a x)) (vmin_le_left a x)

theorem foldl_vmin_le_mem (l : List Vec3) :
    ∀ (a b : Vec3), b ∈ l → VecLE (l.foldl vmin a) b := by
  induction l with
  | nil => intro a b hb; cases hb
  | cons x l ih =>
    intro a b hb
    rcases List.mem_cons.mp hb with rfl | hb
    · exact vecLE_trans (foldl_vmin_le_init l (vmin a b)) (vmin_le_right a b)
    · exact ih (vmin a x) b hb

theorem init_le_foldl_vmax (l : List Vec3) : ∀ a : Vec3, VecLE a (l.foldl vmax a) := by
  induction l with
  | nil => intro a; exact vecLE_refl a
  | cons x l ih =>
    intro a
    exact vecLE_trans (left_le_vmax a x) (ih (vmax a x))

theorem mem_le_foldl_vmax (l : List Vec3) :
    ∀ (a b : Vec3), b ∈ l → VecLE b (l.foldl vmax a) := by
  induction l with
  | nil => intro a b hb; cases hb
  | cons x l ih =>
    intro a b hb
    rcases List.mem_cons.mp hb with rfl | hb
    · exact vecLE_trans (right_le_vmax a b) (init_le_foldl_vmax l (vmax a b))
    · exact ih (vmax a x) b hb

/-- The rotated bounds of `position_sampler` bound every rotated corner
of the local bounding box, component-wise. -/
theorem rotatedBounds_spec (q : Quat4) (b : Vec3 × Vec3) (c : Vec3)
    (hc : c ∈ bboxCorners b) :
    VecLE (rotatedBounds q b).1 (qrot q c) ∧ VecLE (qrot q c) (rotatedBounds q b).2 := by
  have hmem : qrot q c ∈ (bboxCorners b).map (qrot q) := List.mem_map_of_mem _ hc
  unfold rotatedBounds
  cases hL : (bboxCorners b).map (qrot q) with
  | nil => rw [hL] at hmem; cases hmem
  | cons c0 cs =>
    rw [hL] at hmem
    rcases List.mem_cons.mp hmem with h0 | hmem'
    · rw [h0]
      exact ⟨foldl_vmin_le_init cs c0, init_le_foldl_vmax cs c0⟩
    · exact ⟨foldl_vmin_le_mem cs c0 _ hmem', mem_le_foldl_vmax cs c0 _ hmem'⟩

/-- A uniform draw stays between its bounds: for a draw `d ∈ [0, 1)` and
`lo ≤ hi`, the sample `lo + d * (hi - lo)` lies in `[lo, hi]`. -/
theorem uniform_between {lo hi d : ℚ} (h0 : 0 ≤ d) (h1 : d < 1) (hle : lo ≤ hi) :
    lo ≤ lo + d * (hi - lo) ∧ lo + d * (hi - lo) ≤ hi :=
  ⟨by nlinarith, by nlinarith⟩

/-- C3: the sampler `position_sampler(region)` rotates the 8 corners of
the object's local bounding box by the object's current quaternion,
takes their component-wise min and max, subtracts that rotated extent
from the region bounds, and draws the position uniformly (independently
per axis) from the resulting effective region.  Whenever the rotated
extent fits in the region (effective lower bound ≤ effective upper
bound, per axis), the sampled position lies in the effective region and
every rotated corner, translated by the sampled position, stays inside
`region`.  The unit-cube instance of the claim is the witness. -/
theorem position_sampler_keeps_bbox_inside (region : Vec3 × Vec3)
    (obj : PhysicalObject) (r : Rng) (obj' : PhysicalObject) (r' : Rng)
    (hdraws : ValidDraws r.s)
    (hfit : VecLE (vsub region.1 (rotatedBounds obj.quaternion obj.bounds).1)
      (vsub region.2 (rotatedBounds obj.quaternion obj.bounds).2))
    (hres : position_sampler region obj r = some (obj', r')) :
    (VecLE (vsub region.1 (rotatedBounds obj.quaternion obj.bounds).1) obj'.position ∧
     VecLE obj'.position (vsub region.2 (rotatedBounds obj.quaternion obj.bounds).2)) ∧
    (∀ c ∈ bboxCorners obj.bounds,
      VecLE region.1 (vadd obj'.position (qrot obj.quaternion c)) ∧
      VecLE (vadd obj'.position (qrot obj.quaternion c)) region.2) := by
  simp only [position_sampler, uniform3, Option.some.injEq, Prod.mk.injEq] at hres
  obtain ⟨ho, -⟩ := hres
  have hpos : obj'.position =
      ⟨(vsub region.1 (rotatedBounds obj.quaternion obj.bounds).1).x +
        r.s r.p * ((vsub region.2 (rotatedBounds obj.quaternion obj.bounds).2).x -
          (vsub region.1 (rotatedBounds obj.quaternion obj.bounds).1).x),
       (vsub region.1 (rotatedBounds obj.quaternion obj.bounds).1).y +
        r.s (r.p + 1) * ((vsub region.2 (rotatedBounds obj.quaternion obj.bounds).2).y -
          (vsub region.1 (rotatedBounds obj.quaternion obj.bounds).1).y),
       (vsub region.1 (rotatedBounds obj.quaternion obj.bounds).1).z +
        r.s (r.p + 2) * ((vsub region.2 (rotatedBounds obj.quaternion obj.bounds).2).z -
          (vsub region.1 (rotatedBounds obj.quaternion obj.bounds).1).z)⟩ := by
    rw [← ho]
  obtain ⟨hfx, hfy, hfz⟩ := hfit
  have hin : VecLE (vsub region.1 (rotatedBounds obj.quaternion obj.bounds).1)
        obj'.position ∧
      VecLE obj'.position (vsub region.2 (rotatedBounds obj.quaternion obj.bounds).2) := by
    rw [hpos]
    obtain ⟨hx0, hx1⟩ := uniform_between (hdraws r.p).1 (hdraws r.p).2 hfx
    obtain ⟨hy0, hy1⟩ := uniform_between (hdraws (r.p + 1)).1 (hdraws (r.p + 1)).2 hfy
    obtain ⟨hz0, hz1⟩ := uniform_between (hdraws (r.p + 2)).1 (hdraws (r.p + 2)).2 hfz
    exact ⟨⟨hx0, hy0, hz0⟩, ⟨hx1, hy1, hz1⟩⟩
  refine ⟨hin, ?_⟩
  intro c hc
  obtain ⟨hrb1, hrb2⟩ := rotatedBounds_spec obj.quaternion obj.bounds c hc
  obtain ⟨⟨hlx, hly, hlz⟩, ⟨hux, huy, huz⟩⟩ := hin
  obtain ⟨hbx, hby, hbz⟩ := hrb1
  obtain ⟨hcx, hcy, hcz⟩ := hrb2
  simp only [vsub, vadd, VecLE] at *
  refine ⟨⟨by linarith, by linarith, by linarith⟩,
    ⟨by linarith, by linarith, by linarith⟩⟩

/-- C3 witness: for the unit cube centered at the origin with zero
rotation and region `((-1,-1,-1),(1,1,1))`, the effective region is
`((-1/2,-1/2,-1/2),(1/2,1/2,1/2))` and the position sampled over the
zero stream lies within it (at its low corner). -/
theorem position_sampler_keeps_bbox_inside_witness :
    VecLE (vsub regionCube.1 (rotatedBounds unitCubeObj.quaternion unitCubeObj.bounds).1)
      unitCubeObjMoved.position ∧
    VecLE unitCubeObjMoved.position
      (vsub regionCube.2 (rotatedBounds unitCubeObj.quaternion unitCubeObj.bounds).2) :=
  (position_sampler_keeps_bbox_inside regionCube unitCubeObj rngZero
    unitCubeObjMoved ⟨zeroStream, 3, 0⟩
    (fun _ => by norm_num [rngZero, zeroStream])
    (by norm_num [VecLE, vsub, rotatedBounds, bboxCorners, qrot, cross, vmin,
      vmax, regionCube, unitCubeObj])
    (by norm_num [position_sampler, uniform3, rotatedBounds, bboxCorners, qrot,
      cross, vmin, vmax, vsub, regionCube, unitCubeObj, unitCubeObjMoved,
      rngZero, zeroStream])).1

end Kubric
